import Mathlib

/-!
Shallow embedding of the Simple RAG system (TF-IDF weighting plus cosine-similarity
ranking).  The repository's own files (`simple_rag.py`, `app.py`) contain the control
flow: loading documents, guarding queries, calling the vectorizer, taking the arg-max
of the similarity row and displaying the ranked list.  The numeric core itself
(`TfidfVectorizer`, `cosine_similarity`, `np.argmax`, `np.argsort`) is library code
that is not part of the repository's sources, so those parts are modelled from the
specification's explicit formulas; each such definition is marked
`Modelled from the spec:` in its doc comment.  Machine floats are modelled by real
numbers.
-/

namespace SimpleRAG

/-- Modelled from the spec: tokenization (the vectorizer's analyzer is library code not
under `src/`).  Splits on non-alphanumeric boundaries, lower-cases every kept
character, and drops empty tokens.  `acc` holds the characters of the token currently
being read, in reverse. -/
def splitTokens : List Char → List Char → List String
  | [], acc => if acc.isEmpty then [] else [String.mk acc.reverse]
  | c :: rest, acc =>
    if c.isAlphanum then splitTokens rest (c.toLower :: acc)
    else if acc.isEmpty then splitTokens rest []
    else String.mk acc.reverse :: splitTokens rest []

/-- Modelled from the spec: tokenize a text (same rule at fit time and query time). -/
def tokenize (text : String) : List String :=
  splitTokens text.toList []

/-- Modelled from the spec: extend a vocabulary with a list of tokens in order,
appending each term not seen before (so a fresh term receives the next dense id). -/
def addTokens : List String → List String → List String
  | v, [] => v
  | v, t :: rest => addTokens (if t ∈ v then v else v ++ [t]) rest

/-- Modelled from the spec: the fitted vocabulary, terms listed in first-seen order
(document order, then position inside the document); a term's id is its position. -/
def buildVocab (docs : List String) : List String :=
  docs.foldl (fun acc d => addTokens acc (tokenize d)) []

/-- The dense 0-based id assigned to a term by `fit`. -/
def termId (docs : List String) (t : String) : ℕ :=
  (buildVocab docs).indexOf t

/-- All tokens of the corpus in reading order (document order, then position). -/
def tokenStream (docs : List String) : List String :=
  (docs.map tokenize).flatten

/-- Modelled from the spec: document frequency of a term — the number of corpus
documents containing it at least once. -/
def df (docs : List String) (t : String) : ℕ :=
  (docs.filter (fun d => decide (t ∈ tokenize d))).length

/-- Modelled from the spec: raw term frequency of `t` in one text. -/
def tf (text : String) (t : String) : ℕ :=
  (tokenize text).count t

/-- Modelled from the spec: smoothed inverse document frequency,
`idf[t] = ln((1 + N) / (1 + df[t])) + 1`. -/
noncomputable def idf (docs : List String) (t : String) : ℝ :=
  Real.log ((1 + (docs.length : ℝ)) / (1 + (df docs t : ℝ))) + 1

/-- Modelled from the spec: raw TF-IDF weight `tf[t] * idf[t]` of a known term. -/
noncomputable def rawWeight (docs : List String) (text t : String) : ℝ :=
  (tf text t : ℝ) * idf docs t

/-- Squared L2 norm of the raw weight vector of one text over the fitted vocabulary. -/
noncomputable def sqNorm (docs : List String) (text : String) : ℝ :=
  ((buildVocab docs).map (fun t => rawWeight docs text t ^ 2)).sum

/-- Modelled from the spec: final weight of a term after L2 normalization; when every
raw weight is zero the zero vector is produced instead of dividing by zero. -/
noncomputable def weight (docs : List String) (text t : String) : ℝ :=
  if sqNorm docs text = 0 then 0 else rawWeight docs text t / Real.sqrt (sqNorm docs text)

/-- Modelled from the spec: `transform` — the weight vector of one text, indexed by
term id over the fitted vocabulary. -/
noncomputable def transform (docs : List String) (text : String) : List ℝ :=
  (buildVocab docs).map (weight docs text)

/-- Dot product of two vectors of equal index space. -/
noncomputable def dot (v w : List ℝ) : ℝ :=
  (List.zipWith (fun a b => a * b) v w).sum

/-- L2 norm of a vector. -/
noncomputable def l2norm (v : List ℝ) : ℝ :=
  Real.sqrt ((v.map (fun x => x ^ 2)).sum)

/-- The DocumentMatrix: one transformed vector per document, aligned with doc ids. -/
noncomputable def documentMatrix (docs : List String) : List (List ℝ) :=
  docs.map (transform docs)

/-- Modelled from the spec: cosine similarity of a query vector against every row of a
document matrix.  Both sides come out of `transform` already L2-normalized (or zero),
so cosine similarity reduces to the dot product, and a zero vector scores `0.0`. -/
noncomputable def rankScores (qv : List ℝ) (m : List (List ℝ)) : List ℝ :=
  m.map (fun dv => dot qv dv)

/-- The per-document similarity row for a query, as computed inside
`query_documents` / `search_documents`. -/
noncomputable def similarities (docs : List String) (q : String) : List ℝ :=
  docs.map (fun d => dot (transform docs q) (transform docs d))

/-- Modelled from the documented semantics of `np.argmax`: the first index attaining
the maximum value of the list. -/
noncomputable def argmaxIdx : List ℝ → ℕ
  | [] => 0
  | x :: rest =>
    if rest.isEmpty then 0
    else if x < rest.getD (argmaxIdx rest) 0 then argmaxIdx rest + 1
    else 0

/-- Ascending comparison on indices by score, ties broken by index order; this is the
total order realised by an insertion-sort argsort. -/
def simLe (s : List ℝ) (i j : ℕ) : Prop :=
  s.getD i 0 < s.getD j 0 ∨ (s.getD i 0 = s.getD j 0 ∧ i ≤ j)

noncomputable instance (s : List ℝ) : DecidableRel (simLe s) := fun _ _ => by
  unfold simLe; infer_instance

/-- Modelled from `np.argsort(similarities)`: indices sorted by ascending score.
Numpy's documented contract is only that the result ascending-sorts the array (its
default quicksort is not stable); the concrete tie order of this model — equal scores
in ascending index order — is numpy's actual behaviour exactly for arrays of at most
16 elements, where numpy's introsort runs its insertion-sort base case.  Conclusions
about tie order are therefore only asserted for lists of at most 16 scores; the
sortedness and permutation facts hold for any argsort implementation. -/
noncomputable def argsortAsc (s : List ℝ) : List ℕ :=
  List.insertionSort (simLe s) (List.range s.length)

/-- The displayed ranking, `np.argsort(similarities)[::-1]`. -/
noncomputable def rankedIndices (s : List ℝ) : List ℕ :=
  (argsortAsc s).reverse

/-- Truthiness of `query.strip()` in the sources: blank means all-whitespace. -/
def isBlank (s : String) : Bool :=
  s.toList.all (fun c => c.isWhitespace)

/-- Outcome of `SimpleRAG.query_documents`: the explicit empty-query indication, the
not-fitted failure (sklearn's `NotFittedError` raised by `transform` before any fit),
or the result triple `(most_relevant_idx, max_similarity, similarities)`. -/
inductive SearchOutcome
  | emptyQuery : SearchOutcome
  | notFitted : SearchOutcome
  | results : ℕ → ℝ → List ℝ → SearchOutcome

/-- `SimpleRAG.query_documents` (`simple_rag.py`): a blank query is rejected first;
then an unfitted vectorizer fails; otherwise the similarity row is computed and the
arg-max with its score is returned. -/
noncomputable def query_documents (fitted : Bool) (docs : List String) (query : String) :
    SearchOutcome :=
  if isBlank query then .emptyQuery
  else if fitted = false then .notFitted
  else
    .results (argmaxIdx (similarities docs query))
      ((similarities docs query).getD (argmaxIdx (similarities docs query)) 0)
      (similarities docs query)

/-- `search_documents` (`app.py`): returns `None` when the model is not vectorized or
the query is blank, otherwise the triple `(most_relevant_idx, max_similarity,
similarities)`. -/
noncomputable def search_documents (vectorized : Bool) (docs : List String) (query : String) :
    Option (ℕ × ℝ × List ℝ) :=
  if vectorized = false ∨ isBlank query then none
  else
    some (argmaxIdx (similarities docs query),
      (similarities docs query).getD (argmaxIdx (similarities docs query)) 0,
      similarities docs query)

/-- The Streamlit session state of `app.py`: the loaded texts and names, the
`vectorized` flag, and the corpus the current vectorizer/document matrix were fitted
on (modelling the `vectorizer` and `document_vectors` objects). -/
structure AppState where
  documents : List String
  documentNames : List String
  vectorized : Bool
  modelCorpus : List String
  deriving DecidableEq, Repr

/-- `vectorize_documents` (`app.py`): when at least one document is loaded, fit the
vectorizer on the documents, set the `vectorized` flag and report success; otherwise
report failure leaving the state as it is. -/
def vectorize_documents (s : AppState) : AppState × Bool :=
  if s.documents.length > 0 then
    ({ s with modelCorpus := s.documents, vectorized := true }, true)
  else (s, false)

/-- The `Load Documents` click handler in `app.py` `main`: clear the document lists
and the `vectorized` flag, append every upload whose content is non-blank, then run
`vectorize_documents`. -/
def load_documents_click (s : AppState) (uploads : List (String × String)) : AppState :=
  let cleared : AppState := { s with documents := [], documentNames := [], vectorized := false }
  let loaded := uploads.foldl
    (fun st u =>
      if isBlank u.2 then st
      else { st with documents := st.documents ++ [u.2],
                     documentNames := st.documentNames ++ [u.1] })
    cleared
  (vectorize_documents loaded).1

/-- `search_documents` as invoked on the session state. -/
noncomputable def app_search (s : AppState) (query : String) : Option (ℕ × ℝ × List ℝ) :=
  search_documents s.vectorized s.modelCorpus query

/-- One stateful call of the query operation against a model: the outcome together
with the state the model is left in. -/
noncomputable def queryCall (fitted : Bool) (docs : List String) (query : String) :
    SearchOutcome × (Bool × List String) :=
  (query_documents fitted docs query, (fitted, docs))

/-! ## Generic list arithmetic helpers -/

theorem sum_map_div (l : List String) (f : String → ℝ) (c : ℝ) :
    (l.map (fun t => f t / c)).sum = (l.map f).sum / c := by
  induction l with
  | nil => simp
  | cons a t ih => simp [ih, add_div]

theorem sum_map_range (l : List String) (f : String → ℝ) :
    (l.map f).sum = ∑ i ∈ Finset.range l.length, f (l.getD i "") := by
  induction l with
  | nil => simp
  | cons a t ih =>
    rw [List.map_cons, List.sum_cons, List.length_cons, Finset.sum_range_succ']
    simp [ih, add_comm]

theorem dot_map_map (l : List String) (f g : String → ℝ) :
    dot (l.map f) (l.map g) = (l.map (fun t => f t * g t)).sum := by
  induction l with
  | nil => simp [dot]
  | cons a t ih =>
    simp only [dot, List.map_cons, List.zipWith_cons_cons, List.sum_cons] at ih ⊢
    rw [ih]

theorem cauchy_schwarz_maps (l : List String) (f g : String → ℝ) :
    dot (l.map f) (l.map g) ^ 2 ≤
      (l.map (fun t => f t ^ 2)).sum * (l.map (fun t => g t ^ 2)).sum := by
  rw [dot_map_map, sum_map_range l (fun t => f t * g t), sum_map_range l (fun t => f t ^ 2),
    sum_map_range l (fun t => g t ^ 2)]
  exact Finset.sum_mul_sq_le_sq_mul_sq _ _ _

theorem getD_replicate_zero (n i : ℕ) : (List.replicate n (0 : ℝ)).getD i 0 = 0 := by
  induction n generalizing i with
  | zero => simp
  | succ n ih => cases i <;> simp [List.replicate_succ, ih]

theorem dot_replicate_zero_left (n : ℕ) (w : List ℝ) : dot (List.replicate n 0) w = 0 := by
  induction n generalizing w with
  | zero => simp [dot]
  | succ n ih =>
    cases w with
    | nil => simp [dot]
    | cons x w =>
      simp only [List.replicate_succ, dot, List.zipWith_cons_cons, List.sum_cons] at ih ⊢
      rw [zero_mul, ih w, add_zero]

theorem dot_replicate_zero_right (v : List ℝ) (n : ℕ) : dot v (List.replicate n 0) = 0 := by
  induction v generalizing n with
  | nil => simp [dot]
  | cons x v ih =>
    cases n with
    | zero => simp [dot]
    | succ n =>
      simp only [List.replicate_succ, dot, List.zipWith_cons_cons, List.sum_cons] at ih ⊢
      rw [mul_zero, ih n, add_zero]

theorem dot_self_eq (v : List ℝ) : dot v v = (v.map (fun x => x ^ 2)).sum := by
  induction v with
  | nil => simp [dot]
  | cons x w ih =>
    simp only [dot, List.zipWith_cons_cons, List.sum_cons, List.map_cons] at ih ⊢
    rw [ih]
    ring_nf

/-! ## Term statistics -/

theorem tf_eq_zero (text t : String) (h : t ∉ tokenize text) : tf text t = 0 :=
  List.count_eq_zero.mpr h

theorem tf_pos (text t : String) (h : t ∈ tokenize text) : 0 < tf text t :=
  List.count_pos_iff.mpr h

theorem df_le_length (docs : List String) (t : String) : df docs t ≤ docs.length :=
  List.length_filter_le _ _

theorem one_le_idf (docs : List String) (t : String) : 1 ≤ idf docs t := by
  unfold idf
  have h1 : (0 : ℝ) < 1 + (df docs t : ℝ) := by positivity
  have h2 : 1 + (df docs t : ℝ) ≤ 1 + (docs.length : ℝ) := by
    have h3 : (df docs t : ℝ) ≤ (docs.length : ℝ) := Nat.cast_le.mpr (df_le_length docs t)
    linarith
  have hlog : 0 ≤ Real.log ((1 + (docs.length : ℝ)) / (1 + (df docs t : ℝ))) :=
    Real.log_nonneg ((one_le_div h1).mpr h2)
  linarith

theorem idf_pos (docs : List String) (t : String) : 0 < idf docs t :=
  lt_of_lt_of_le one_pos (one_le_idf docs t)

/-! ## Normalization lemmas -/

theorem sqNorm_nonneg (docs : List String) (text : String) : 0 ≤ sqNorm docs text := by
  apply List.sum_nonneg
  intro x hx
  simp only [List.mem_map] at hx
  obtain ⟨t, _, rfl⟩ := hx
  positivity

theorem sqNorm_eq_zero_of_unknown (docs : List String) (q : String)
    (h : ∀ t ∈ tokenize q, t ∉ buildVocab docs) : sqNorm docs q = 0 := by
  apply List.sum_eq_zero
  intro x hx
  simp only [List.mem_map] at hx
  obtain ⟨t, ht, rfl⟩ := hx
  have hq : t ∉ tokenize q := fun hmem => h t hmem ht
  simp [rawWeight, tf_eq_zero _ _ hq]

theorem transform_eq_zero (docs : List String) (text : String) (h : sqNorm docs text = 0) :
    transform docs text = List.replicate (buildVocab docs).length 0 := by
  rw [List.eq_replicate_iff]
  constructor
  · simp [transform]
  · intro b hb
    simp only [transform, List.mem_map] at hb
    obtain ⟨t, _, rfl⟩ := hb
    simp [weight, h]

theorem similarities_of_zero_query (docs : List String) (q : String) (h : sqNorm docs q = 0) :
    similarities docs q = List.replicate docs.length 0 := by
  rw [List.eq_replicate_iff]
  refine ⟨by simp [similarities], ?_⟩
  intro b hb
  simp only [similarities, List.mem_map] at hb
  obtain ⟨d, _, rfl⟩ := hb
  rw [transform_eq_zero docs q h, dot_replicate_zero_left]

theorem sum_weight_sq (docs : List String) (text : String) (h : sqNorm docs text ≠ 0) :
    ((buildVocab docs).map (fun t => weight docs text t ^ 2)).sum = 1 := by
  have hpos : 0 < sqNorm docs text := lt_of_le_of_ne (sqNorm_nonneg docs text) (Ne.symm h)
  have hsq : Real.sqrt (sqNorm docs text) ^ 2 = sqNorm docs text := Real.sq_sqrt (le_of_lt hpos)
  simp only [weight, if_neg h, div_pow, hsq]
  rw [sum_map_div]
  show sqNorm docs text / sqNorm docs text = 1
  exact div_self h

theorem sumSq_transform (docs : List String) (text : String) (h : sqNorm docs text ≠ 0) :
    ((transform docs text).map (fun x => x ^ 2)).sum = 1 := by
  rw [transform, List.map_map]
  show ((buildVocab docs).map (fun t => weight docs text t ^ 2)).sum = 1
  exact sum_weight_sq docs text h

theorem l2norm_transform (docs : List String) (text : String) (h : sqNorm docs text ≠ 0) :
    l2norm (transform docs text) = 1 := by
  rw [l2norm, sumSq_transform docs text h, Real.sqrt_one]

theorem sqNorm_pos_of_token (docs : List String) (text t : String)
    (htok : t ∈ tokenize text) (hv : t ∈ buildVocab docs) : 0 < sqNorm docs text := by
  have htf : (0 : ℝ) < (tf text t : ℝ) := by exact_mod_cast tf_pos text t htok
  have hraw : 0 < rawWeight docs text t := mul_pos htf (idf_pos docs t)
  have hmem : rawWeight docs text t ^ 2 ∈
      (buildVocab docs).map (fun u => rawWeight docs text u ^ 2) :=
    List.mem_map_of_mem _ hv
  have hle : rawWeight docs text t ^ 2 ≤ sqNorm docs text := by
    apply List.single_le_sum ?_ _ hmem
    intro x hx
    simp only [List.mem_map] at hx
    obtain ⟨u, _, rfl⟩ := hx
    positivity
  calc (0 : ℝ) < rawWeight docs text t ^ 2 := by positivity
    _ ≤ sqNorm docs text := hle

theorem dot_transform_self (docs : List String) (text : String) (h : sqNorm docs text ≠ 0) :
    dot (transform docs text) (transform docs text) = 1 := by
  rw [dot_self_eq]
  exact sumSq_transform docs text h

theorem dot_transform_le_one (docs : List String) (q d : String) (hq : sqNorm docs q ≠ 0) :
    dot (transform docs q) (transform docs d) ≤ 1 := by
  by_cases hd : sqNorm docs d = 0
  · rw [transform_eq_zero docs d hd, dot_replicate_zero_right]
    norm_num
  · have e1 : ((buildVocab docs).map (fun t => weight docs q t ^ 2)).sum = 1 :=
      sum_weight_sq docs q hq
    have e2 : ((buildVocab docs).map (fun t => weight docs d t ^ 2)).sum = 1 :=
      sum_weight_sq docs d hd
    have hcs := cauchy_schwarz_maps (buildVocab docs) (weight docs q) (weight docs d)
    rw [e1, e2, mul_one] at hcs
    have hgoal : dot ((buildVocab docs).map (weight docs q))
        ((buildVocab docs).map (weight docs d)) ≤ 1 := by nlinarith [hcs]
    exact hgoal

/-! ## Arg-max lemmas -/

theorem argmaxIdx_cons (x : ℝ) (rest : List ℝ) (hr : rest ≠ []) :
    argmaxIdx (x :: rest) =
      if x < rest.getD (argmaxIdx rest) 0 then argmaxIdx rest + 1 else 0 := by
  have hE : rest.isEmpty = false := by
    cases rest with
    | nil => exact absurd rfl hr
    | cons a b => rfl
  rw [argmaxIdx, hE]
  rfl

theorem argmaxIdx_lt_length (l : List ℝ) (h : l ≠ []) : argmaxIdx l < l.length := by
  induction l with
  | nil => exact absurd rfl h
  | cons x rest ih =>
    by_cases hr : rest = []
    · subst hr
      simp [argmaxIdx]
    · rw [argmaxIdx_cons x rest hr]
      by_cases hc : x < rest.getD (argmaxIdx rest) 0
      · rw [if_pos hc, List.length_cons]
        exact Nat.succ_lt_succ (ih hr)
      · rw [if_neg hc]
        simp

theorem getD_le_argmaxIdx (l : List ℝ) :
    ∀ j < l.length, l.getD j 0 ≤ l.getD (argmaxIdx l) 0 := by
  induction l with
  | nil => intro j hj; simp at hj
  | cons x rest ih =>
    intro j hj
    by_cases hr : rest = []
    · subst hr
      simp only [List.length_cons, List.length_nil, Nat.lt_succ_iff, Nat.le_zero] at hj
      subst hj
      simp [argmaxIdx]
    · rw [argmaxIdx_cons x rest hr]
      by_cases hc : x < rest.getD (argmaxIdx rest) 0
      · rw [if_pos hc]
        cases j with
        | zero =>
          rw [List.getD_cons_zero, List.getD_cons_succ]
          exact le_of_lt hc
        | succ k =>
          rw [List.getD_cons_succ, List.getD_cons_succ]
          exact ih k (by simpa [Nat.succ_lt_succ_iff] using hj)
      · rw [if_neg hc]
        push_neg at hc
        cases j with
        | zero => simp
        | succ k =>
          rw [List.getD_cons_succ, List.getD_cons_zero]
          exact le_trans (ih k (by simpa [Nat.succ_lt_succ_iff] using hj)) hc

theorem getD_lt_argmaxIdx (l : List ℝ) :
    ∀ j < argmaxIdx l, l.getD j 0 < l.getD (argmaxIdx l) 0 := by
  induction l with
  | nil => intro j hj; simp [argmaxIdx] at hj
  | cons x rest ih =>
    intro j hj
    by_cases hr : rest = []
    · subst hr
      simp [argmaxIdx] at hj
    · rw [argmaxIdx_cons x rest hr] at hj ⊢
      by_cases hc : x < rest.getD (argmaxIdx rest) 0
      · rw [if_pos hc] at hj ⊢
        cases j with
        | zero =>
          rw [List.getD_cons_zero, List.getD_cons_succ]
          exact hc
        | succ k =>
          rw [List.getD_cons_succ, List.getD_cons_succ]
          exact ih k (Nat.lt_of_succ_lt_succ hj)
      · rw [if_neg hc] at hj
        exact absurd hj (Nat.not_lt_zero j)

/-! ## Ranking lemmas -/

theorem simLe_total (s : List ℝ) : ∀ i j, simLe s i j ∨ simLe s j i := by
  intro i j
  rcases lt_trichotomy (s.getD i 0) (s.getD j 0) with h | h | h
  · exact Or.inl (Or.inl h)
  · rcases le_total i j with hij | hij
    · exact Or.inl (Or.inr ⟨h, hij⟩)
    · exact Or.inr (Or.inr ⟨h.symm, hij⟩)
  · exact Or.inr (Or.inl h)

theorem simLe_trans (s : List ℝ) :
    ∀ i j k, simLe s i j → simLe s j k → simLe s i k := by
  intro i j k hij hjk
  rcases hij with h | ⟨he, hle⟩
  · rcases hjk with h2 | ⟨he2, _⟩
    · exact Or.inl (lt_trans h h2)
    · exact Or.inl (he2 ▸ h)
  · rcases hjk with h2 | ⟨he2, hle2⟩
    · exact Or.inl (he ▸ h2)
    · exact Or.inr ⟨he.trans he2, le_trans hle hle2⟩

theorem argsortAsc_perm (s : List ℝ) : (argsortAsc s).Perm (List.range s.length) :=
  List.perm_insertionSort _ _

theorem rankedIndices_perm (s : List ℝ) : (rankedIndices s).Perm (List.range s.length) :=
  (List.reverse_perm _).trans (argsortAsc_perm s)

theorem argsortAsc_sorted (s : List ℝ) : List.Sorted (simLe s) (argsortAsc s) := by
  haveI : IsTotal ℕ (simLe s) := ⟨simLe_total s⟩
  haveI : IsTrans ℕ (simLe s) := ⟨simLe_trans s⟩
  exact List.sorted_insertionSort _ _

theorem rankedIndices_nodup (s : List ℝ) : (rankedIndices s).Nodup :=
  (rankedIndices_perm s).symm.nodup (List.nodup_range _)

theorem rankedIndices_pairwise (s : List ℝ) :
    (rankedIndices s).Pairwise
      (fun i j => s.getD j 0 < s.getD i 0 ∨ (s.getD i 0 = s.getD j 0 ∧ j < i)) := by
  have hs : (rankedIndices s).Pairwise (fun i j => simLe s j i) :=
    List.pairwise_reverse.mpr (argsortAsc_sorted s)
  have hne : (rankedIndices s).Pairwise (fun i j => i ≠ j) := rankedIndices_nodup s
  refine (hs.and hne).imp ?_
  rintro a b ⟨hab, hne2⟩
  rcases hab with h | ⟨he, hle⟩
  · exact Or.inl h
  · exact Or.inr ⟨he.symm, lt_of_le_of_ne hle (fun e => hne2 e.symm)⟩

theorem rankedIndices_replicate_zero (n : ℕ) :
    rankedIndices (List.replicate n (0 : ℝ)) = (List.range n).reverse := by
  have hsorted : List.Sorted (simLe (List.replicate n 0)) (List.range n) := by
    refine (List.pairwise_lt_range n).imp ?_
    intro a b hab
    exact Or.inr ⟨by rw [getD_replicate_zero, getD_replicate_zero], le_of_lt hab⟩
  rw [rankedIndices, argsortAsc, List.length_replicate, hsorted.insertionSort_eq]

theorem similarities_length (docs : List String) (q : String) :
    (similarities docs q).length = docs.length := by
  simp [similarities]

theorem similarities_getD (docs : List String) (q : String) (j : ℕ) (hj : j < docs.length) :
    (similarities docs q).getD j 0 =
      dot (transform docs q) (transform docs (docs.getD j "")) := by
  rw [similarities, List.getD_eq_getElem _ _ (by simpa using hj), List.getElem_map,
    List.getD_eq_getElem docs "" hj]

/-! ## Vocabulary lemmas -/

theorem mem_addTokens (toks : List String) :
    ∀ (v : List String) (t : String), t ∈ addTokens v toks ↔ t ∈ v ∨ t ∈ toks := by
  induction toks with
  | nil => intro v t; simp [addTokens]
  | cons a rest ih =>
    intro v t
    rw [addTokens, ih]
    by_cases ha : a ∈ v
    · rw [if_pos ha]
      constructor
      · rintro (hv | hr)
        · exact Or.inl hv
        · exact Or.inr (List.mem_cons_of_mem a hr)
      · rintro (hv | hc)
        · exact Or.inl hv
        · rcases List.mem_cons.mp hc with rfl | hr
          · exact Or.inl ha
          · exact Or.inr hr
    · rw [if_neg ha]
      constructor
      · rintro (hv | hr)
        · rcases List.mem_append.mp hv with hv | hx
          · exact Or.inl hv
          · exact Or.inr (by simpa using List.mem_cons.mpr (Or.inl (List.mem_singleton.mp hx)))
        · exact Or.inr (List.mem_cons_of_mem a hr)
      · rintro (hv | hc)
        · exact Or.inl (List.mem_append.mpr (Or.inl hv))
        · rcases List.mem_cons.mp hc with rfl | hr
          · exact Or.inl (List.mem_append.mpr (Or.inr (List.mem_singleton.mpr rfl)))
          · exact Or.inr hr

theorem nodup_addTokens (toks : List String) :
    ∀ v : List String, v.Nodup → (addTokens v toks).Nodup := by
  induction toks with
  | nil => intro v hv; exact hv
  | cons a rest ih =>
    intro v hv
    rw [addTokens]
    apply ih
    by_cases ha : a ∈ v
    · rwa [if_pos ha]
    · rw [if_neg ha]
      simp [List.nodup_append, hv, List.disjoint_singleton, ha]

theorem addTokens_snoc (v toks : List String) (x : String) :
    addTokens v (toks ++ [x]) =
      if x ∈ addTokens v toks then addTokens v toks else addTokens v toks ++ [x] := by
  induction toks generalizing v with
  | nil => simp [addTokens]
  | cons a rest ih =>
    rw [List.cons_append, addTokens, addTokens, ih]

theorem buildVocab_eq (docs : List String) :
    buildVocab docs = addTokens [] (tokenStream docs) := by
  suffices h : ∀ v, docs.foldl (fun acc d => addTokens acc (tokenize d)) v =
      addTokens v (tokenStream docs) by
    exact h []
  induction docs with
  | nil => intro v; simp [tokenStream, addTokens]
  | cons d rest ih =>
    intro v
    rw [List.foldl_cons, ih]
    have hstream : tokenStream (d :: rest) = tokenize d ++ tokenStream rest := by
      simp [tokenStream]
    rw [hstream]
    clear hstream ih
    induction (tokenize d) generalizing v with
    | nil => simp [addTokens]
    | cons a toks ih2 =>
      rw [List.cons_append, addTokens, addTokens, ih2]

theorem mem_buildVocab (docs : List String) (t : String) :
    t ∈ buildVocab docs ↔ t ∈ tokenStream docs := by
  rw [buildVocab_eq, mem_addTokens]
  simp

theorem nodup_buildVocab (docs : List String) : (buildVocab docs).Nodup := by
  rw [buildVocab_eq]
  exact nodup_addTokens _ _ List.nodup_nil

theorem token_mem_buildVocab (docs : List String) (d t : String)
    (hd : d ∈ docs) (ht : t ∈ tokenize d) : t ∈ buildVocab docs := by
  rw [mem_buildVocab, tokenStream, List.mem_flatten]
  exact ⟨tokenize d, List.mem_map_of_mem tokenize hd, ht⟩

theorem addTokens_order (S : List String) :
    ∀ s t, s ∈ addTokens [] S → t ∈ addTokens [] S →
      ((addTokens [] S).indexOf s < (addTokens [] S).indexOf t ↔
        S.indexOf s < S.indexOf t) := by
  induction S using List.reverseRecOn with
  | nil => intro s t hs _; simp [addTokens] at hs
  | append_singleton S x ih =>
    intro s t hs ht
    rw [addTokens_snoc] at hs ht ⊢
    have hmemS : ∀ u : String, u ∈ addTokens [] S ↔ u ∈ S := by
      intro u
      rw [mem_addTokens]
      simp
    by_cases hx : x ∈ addTokens [] S
    · rw [if_pos hx] at hs ht ⊢
      have hsS : s ∈ S := (hmemS s).mp hs
      have htS : t ∈ S := (hmemS t).mp ht
      rw [List.indexOf_append_of_mem hsS, List.indexOf_append_of_mem htS]
      exact ih s t hs ht
    · rw [if_neg hx] at hs ht ⊢
      have hxS : x ∉ S := fun hc => hx ((hmemS x).mpr hc)
      rcases List.mem_append.mp hs with hsV | hsx
      · have hsS : s ∈ S := (hmemS s).mp hsV
        rcases List.mem_append.mp ht with htV | htx
        · have htS : t ∈ S := (hmemS t).mp htV
          rw [List.indexOf_append_of_mem hsV, List.indexOf_append_of_mem htV,
            List.indexOf_append_of_mem hsS, List.indexOf_append_of_mem htS]
          exact ih s t hsV htV
        · have htx2 : t = x := List.mem_singleton.mp htx
          subst htx2
          rw [List.indexOf_append_of_mem hsV, List.indexOf_append_of_not_mem hx,
            List.indexOf_append_of_mem hsS, List.indexOf_append_of_not_mem hxS]
          have h1 : (addTokens [] S).indexOf s < (addTokens [] S).length :=
            List.indexOf_lt_length.mpr hsV
          have h2 : S.indexOf s < S.length := List.indexOf_lt_length.mpr hsS
          constructor
          · intro _; omega
          · intro _; omega
      · have hsx2 : s = x := List.mem_singleton.mp hsx
        rcases List.mem_append.mp ht with htV | htx
        · have htS : t ∈ S := (hmemS t).mp htV
          rw [hsx2, List.indexOf_append_of_not_mem hx, List.indexOf_append_of_mem htV,
            List.indexOf_append_of_not_mem hxS, List.indexOf_append_of_mem htS]
          have h1 : (addTokens [] S).indexOf t < (addTokens [] S).length :=
            List.indexOf_lt_length.mpr htV
          have h2 : S.indexOf t < S.length := List.indexOf_lt_length.mpr htS
          constructor
          · intro hlt; omega
          · intro hlt; omega
        · have htx2 : t = x := List.mem_singleton.mp htx
          rw [hsx2, htx2]
          constructor
          · intro hlt; exact absurd hlt (lt_irrefl _)
          · intro hlt; exact absurd hlt (lt_irrefl _)

theorem termId_order (docs : List String) (s t : String)
    (hs : s ∈ buildVocab docs) (ht : t ∈ buildVocab docs) :
    termId docs s < termId docs t ↔
      (tokenStream docs).indexOf s < (tokenStream docs).indexOf t := by
  unfold termId
  rw [buildVocab_eq] at hs ht ⊢
  exact addTokens_order (tokenStream docs) s t hs ht

theorem termId_lt_length (docs : List String) (t : String) (ht : t ∈ buildVocab docs) :
    termId docs t < (buildVocab docs).length :=
  List.indexOf_lt_length.mpr ht

theorem termId_surjective (docs : List String) (k : ℕ)
    (hk : k < (buildVocab docs).length) :
    ∃ t ∈ buildVocab docs, termId docs t = k := by
  refine ⟨(buildVocab docs)[k], List.getElem_mem _, ?_⟩
  unfold termId
  exact List.indexOf_getElem (nodup_buildVocab docs) k hk

/-! ## Concrete evaluations used by counterexamples and witnesses -/

theorem idf_apple : idf ["apple", "apple"] "apple" = 1 := by
  have hdf : df ["apple", "apple"] "apple" = 2 := by decide
  unfold idf
  rw [hdf]
  norm_num

theorem transform_apple : transform ["apple", "apple"] "apple" = [1] := by
  have hvocab : buildVocab ["apple", "apple"] = ["apple"] := by decide
  have hraw : rawWeight ["apple", "apple"] "apple" "apple" = 1 := by
    have htf : tf "apple" "apple" = 1 := by decide
    unfold rawWeight
    rw [htf, idf_apple]
    norm_num
  have hsq : sqNorm ["apple", "apple"] "apple" = 1 := by
    unfold sqNorm
    rw [hvocab, List.map_cons, List.map_nil, List.sum_cons, List.sum_nil, hraw]
    norm_num
  rw [transform, hvocab, List.map_cons, List.map_nil]
  simp only [weight, hsq]
  rw [if_neg one_ne_zero, hraw, Real.sqrt_one, div_one]

theorem sims_apple : similarities ["apple", "apple"] "apple" = [1, 1] := by
  rw [similarities, List.map_cons, List.map_cons, List.map_nil, transform_apple]
  simp [dot]

theorem ranked_apple : rankedIndices (similarities ["apple", "apple"] "apple") = [1, 0] := by
  rw [sims_apple]
  have hsorted : List.Sorted (simLe [(1 : ℝ), 1]) (List.range 2) := by
    have h2 : List.range 2 = [0, 1] := rfl
    rw [h2]
    refine List.pairwise_cons.mpr ⟨?_, List.pairwise_singleton _ _⟩
    intro b hb
    have hb2 : b = 1 := by simpa using hb
    rw [hb2]
    exact Or.inr ⟨rfl, by omega⟩
  rw [rankedIndices, argsortAsc]
  have hlen : ([(1 : ℝ), 1]).length = 2 := rfl
  rw [hlen, hsorted.insertionSort_eq]
  rfl

theorem sims_orange : similarities ["apple", "banana"] "orange" = [0, 0] := by
  have h : ∀ t ∈ tokenize "orange", t ∉ buildVocab ["apple", "banana"] := by decide
  rw [similarities_of_zero_query _ _ (sqNorm_eq_zero_of_unknown _ _ h)]
  rfl

theorem ranked_orange : rankedIndices (similarities ["apple", "banana"] "orange") = [1, 0] := by
  have h : ∀ t ∈ tokenize "orange", t ∉ buildVocab ["apple", "banana"] := by decide
  rw [similarities_of_zero_query _ _ (sqNorm_eq_zero_of_unknown _ _ h),
    rankedIndices_replicate_zero]
  rfl

theorem sims_dots : similarities ["apple", "...."] "...." = [0, 0] := by
  have h : ∀ t ∈ tokenize "....", t ∉ buildVocab ["apple", "...."] := by decide
  rw [similarities_of_zero_query _ _ (sqNorm_eq_zero_of_unknown _ _ h)]
  rfl

theorem argmax_pair_zeros : argmaxIdx [(0 : ℝ), 0] = 0 := by
  have h1 : argmaxIdx [(0 : ℝ)] = 0 := by simp [argmaxIdx]
  rw [argmaxIdx_cons 0 [0] (by simp), h1, List.getD_cons_zero, if_neg (lt_irrefl 0)]

theorem argmax_pair_ones : argmaxIdx [(1 : ℝ), 1] = 0 := by
  have h1 : argmaxIdx [(1 : ℝ)] = 0 := by simp [argmaxIdx]
  rw [argmaxIdx_cons 1 [1] (by simp), h1, List.getD_cons_zero, if_neg (lt_irrefl 1)]

/-! ## Claim theorems -/

/-- C1 (counterexample): on the corpus `["apple", "apple"]` with query `"apple"` both
documents receive the equal score `1.0`, yet the displayed ranking
`np.argsort(similarities)[::-1]` lists doc 1 before doc 0 — the claim's tie-break by
ascending `doc_id` (which would give `[0, 1]`) is false on the code. -/
theorem c1_counterexample :
    similarities ["apple", "apple"] "apple" = [1, 1] ∧
    rankedIndices (similarities ["apple", "apple"] "apple") = [1, 0] ∧
    rankedIndices (similarities ["apple", "apple"] "apple") ≠ [0, 1] := by
  refine ⟨sims_apple, ranked_apple, ?_⟩
  rw [ranked_apple]
  decide

/-- C1 (amended): for every query, the full ranked result lists all documents
(a permutation of the doc ids) sorted by descending similarity score — facts any
argsort implementation guarantees at every size.  The claimed tie-break by ascending
`doc_id` is false; the actual tie order is only defined where numpy's default sort is
its stable insertion-sort base case, i.e. for corpora of at most 16 documents: there,
equal scores come out with the larger `doc_id` first (the ascending argsort is
reversed).  For larger corpora numpy's unstable quicksort leaves the tie order
unspecified. -/
theorem c1_full_ranking (docs : List String) (q : String) :
    (rankedIndices (similarities docs q)).Perm (List.range docs.length) ∧
    (rankedIndices (similarities docs q)).Pairwise
      (fun i j => (similarities docs q).getD j 0 ≤ (similarities docs q).getD i 0) ∧
    (docs.length ≤ 16 →
      (rankedIndices (similarities docs q)).Pairwise
        (fun i j => (similarities docs q).getD j 0 < (similarities docs q).getD i 0 ∨
          ((similarities docs q).getD i 0 = (similarities docs q).getD j 0 ∧ j < i))) := by
  refine ⟨?_, ?_, fun _ => rankedIndices_pairwise (similarities docs q)⟩
  · have hperm := rankedIndices_perm (similarities docs q)
    rwa [similarities_length] at hperm
  · refine (rankedIndices_pairwise (similarities docs q)).imp ?_
    rintro a b (hlt | ⟨heq, _⟩)
    · exact le_of_lt hlt
    · exact le_of_eq heq.symm

/-- C1 (witness): the tie-order conclusion evaluated on the two-document corpus
`["apple", "apple"]`, which is within numpy's insertion-sort regime. -/
theorem c1_witness :
    (["apple", "apple"] : List String).length ≤ 16 ∧
    (rankedIndices (similarities ["apple", "apple"] "apple")).Pairwise
      (fun i j => (similarities ["apple", "apple"] "apple").getD j 0 <
          (similarities ["apple", "apple"] "apple").getD i 0 ∨
        ((similarities ["apple", "apple"] "apple").getD i 0 =
            (similarities ["apple", "apple"] "apple").getD j 0 ∧ j < i)) :=
  ⟨by decide, (c1_full_ranking ["apple", "apple"] "apple").2.2 (by decide)⟩

/-- C2 (counterexample): for the corpus `["apple", "banana"]` and the unknown-term
query `"orange"`, every document scores `0.0` but the resulting ranking is `[1, 0]` —
descending `doc_id`, not the ascending order the claim states. -/
theorem c2_counterexample :
    similarities ["apple", "banana"] "orange" = [0, 0] ∧
    rankedIndices (similarities ["apple", "banana"] "orange") = [1, 0] ∧
    rankedIndices (similarities ["apple", "banana"] "orange") ≠ [0, 1] := by
  refine ⟨sims_orange, ranked_orange, ?_⟩
  rw [ranked_orange]
  decide

/-- C2 (amended): a query all of whose tokens are absent from the fitted vocabulary
transforms to the zero vector and every document receives similarity score `0.0`, at
every corpus size.  The claimed fallback to ascending `doc_id` is false; the tie order
is only defined where numpy's default sort is its stable insertion-sort base case,
i.e. for corpora of at most 16 documents: there the all-ties ranking is descending
`doc_id` (the reverse of `range`).  For larger corpora numpy's unstable quicksort
leaves the order of the tied zeros unspecified. -/
theorem c2_unknown_query (docs : List String) (q : String)
    (h : ∀ t ∈ tokenize q, t ∉ buildVocab docs) :
    transform docs q = List.replicate (buildVocab docs).length 0 ∧
    similarities docs q = List.replicate docs.length 0 ∧
    (docs.length ≤ 16 →
      rankedIndices (similarities docs q) = (List.range docs.length).reverse) := by
  have hz := sqNorm_eq_zero_of_unknown docs q h
  refine ⟨transform_eq_zero docs q hz, similarities_of_zero_query docs q hz, fun _ => ?_⟩
  rw [similarities_of_zero_query docs q hz, rankedIndices_replicate_zero]

/-- C2 (witness): the amended claim evaluated on corpus `["apple", "banana"]` (within
numpy's insertion-sort regime) and the unknown-term query `"orange"`. -/
theorem c2_witness :
    similarities ["apple", "banana"] "orange" =
      List.replicate (["apple", "banana"] : List String).length 0 ∧
    rankedIndices (similarities ["apple", "banana"] "orange") =
      (List.range (["apple", "banana"] : List String).length).reverse :=
  ⟨(c2_unknown_query ["apple", "banana"] "orange" (by decide)).2.1,
   (c2_unknown_query ["apple", "banana"] "orange" (by decide)).2.2 (by decide)⟩

/-- C3: for every term of the fitted vocabulary the inverse document frequency equals
`ln((1 + N) / (1 + df[t])) + 1` and is strictly positive (indeed at least 1), including
for a term present in every document. -/
theorem c3_idf_formula (docs : List String) (t : String) (_ht : t ∈ buildVocab docs) :
    idf docs t = Real.log ((1 + (docs.length : ℝ)) / (1 + (df docs t : ℝ))) + 1 ∧
    0 < idf docs t ∧ 1 ≤ idf docs t :=
  ⟨rfl, idf_pos docs t, one_le_idf docs t⟩

/-- C3 (witness): the term `"apple"` occurs in every document of
`["apple", "apple"]` (df = N = 2) and its idf is still strictly positive. -/
theorem c3_witness :
    ("apple" ∈ buildVocab ["apple", "apple"]) ∧ 0 < idf ["apple", "apple"] "apple" :=
  ⟨by decide, (c3_idf_formula ["apple", "apple"] "apple" (by decide)).2.1⟩

/-- C4: the vector produced by `transform` is either the zero vector (all-zero raw
weights, taken without any division) or has L2 norm exactly 1; in the real-number
model "within floating tolerance" is exact equality. -/
theorem c4_normalization (docs : List String) (text : String) :
    transform docs text = List.replicate (buildVocab docs).length 0 ∨
    l2norm (transform docs text) = 1 := by
  by_cases h : sqNorm docs text = 0
  · exact Or.inl (transform_eq_zero docs text h)
  · exact Or.inr (l2norm_transform docs text h)

/-- C5: the fitted vocabulary has no duplicate terms, contains exactly the tokens of
the corpus, assigns ids that are dense and 0-based (every id below the size is hit),
and orders ids by first appearance in the token stream (document order, then position
within the document). -/
theorem c5_vocab_first_seen (docs : List String) :
    (buildVocab docs).Nodup ∧
    (∀ t, t ∈ buildVocab docs ↔ t ∈ tokenStream docs) ∧
    (∀ t ∈ buildVocab docs, termId docs t < (buildVocab docs).length) ∧
    (∀ k, k < (buildVocab docs).length → ∃ t ∈ buildVocab docs, termId docs t = k) ∧
    (∀ s t, s ∈ buildVocab docs → t ∈ buildVocab docs →
      (termId docs s < termId docs t ↔
        (tokenStream docs).indexOf s < (tokenStream docs).indexOf t)) :=
  ⟨nodup_buildVocab docs, mem_buildVocab docs,
    fun t ht => termId_lt_length docs t ht,
    fun k hk => termId_surjective docs k hk,
    fun s t hs ht => termId_order docs s t hs ht⟩

/-- C5 (witness): on the corpus `["banana apple"]`, `"banana"` is seen first and gets
id 0, `"apple"` gets id 1, and the id order matches the first-occurrence order. -/
theorem c5_witness :
    ("banana" ∈ buildVocab ["banana apple"]) ∧
    ("apple" ∈ buildVocab ["banana apple"]) ∧
    termId ["banana apple"] "banana" = 0 ∧
    termId ["banana apple"] "apple" = 1 ∧
    (termId ["banana apple"] "banana" < termId ["banana apple"] "apple" ↔
      (tokenStream ["banana apple"]).indexOf "banana" <
        (tokenStream ["banana apple"]).indexOf "apple") :=
  ⟨by decide, by decide, by decide, by decide,
    (c5_vocab_first_seen ["banana apple"]).2.2.2.2 "banana" "apple" (by decide) (by decide)⟩

/-- C6: the search operation returns the not-fitted failure when invoked before any
successful fit on a non-blank query, and for a blank query it returns the explicit
empty-query indication (in `app.py`, `None`) without entering the ranking branch. -/
theorem c6_guards (fitted : Bool) (docs : List String) (q : String) :
    (isBlank q = true → query_documents fitted docs q = SearchOutcome.emptyQuery) ∧
    (isBlank q = false → query_documents false docs q = SearchOutcome.notFitted) ∧
    search_documents false docs q = none ∧
    (isBlank q = true → search_documents fitted docs q = none) := by
  refine ⟨?_, ?_, ?_, ?_⟩
  · intro h
    rw [query_documents, if_pos h]
  · intro h
    rw [query_documents, if_neg (by simp [h]), if_pos rfl]
  · rw [search_documents, if_pos (Or.inl rfl)]
  · intro h
    rw [search_documents, if_pos (Or.inr h)]

/-- C6 (witness): the guards evaluated on the corpus `["a", "b"]`: the blank query
gives the empty-query indication, and a real query against an unfitted model fails. -/
theorem c6_witness :
    query_documents true ["a", "b"] "" = SearchOutcome.emptyQuery ∧
    query_documents false ["a", "b"] "apple" = SearchOutcome.notFitted ∧
    search_documents false ["a", "b"] "apple" = none ∧
    search_documents true ["a", "b"] "" = none :=
  ⟨(c6_guards true ["a", "b"] "").1 (by decide),
   (c6_guards false ["a", "b"] "apple").2.1 (by decide),
   (c6_guards false ["a", "b"] "apple").2.2.1,
   (c6_guards true ["a", "b"] "").2.2.2 (by decide)⟩

/-- C7: `transform` is deterministic (equal inputs give equal weight vectors), the
similarity row is a pure function of the query vector and the document matrix alone,
and a query call leaves the model state unchanged, so an immediately repeated call
returns the identical outcome. -/
theorem c7_determinism_purity (docs : List String) (t₁ t₂ : String) (h : t₁ = t₂)
    (fitted : Bool) (q : String) :
    transform docs t₁ = transform docs t₂ ∧
    similarities docs q = rankScores (transform docs q) (documentMatrix docs) ∧
    (queryCall fitted docs q).2 = (fitted, docs) ∧
    queryCall ((queryCall fitted docs q).2).1 ((queryCall fitted docs q).2).2 q =
      queryCall fitted docs q := by
  refine ⟨by rw [h], ?_, rfl, rfl⟩
  rw [similarities, rankScores, documentMatrix, List.map_map]
  rfl

/-- C7 (witness): determinism and the pure factorization evaluated on the corpus
`["apple"]` with query `"apple"`. -/
theorem c7_witness :
    transform ["apple"] "apple" = transform ["apple"] "apple" ∧
    similarities ["apple"] "apple" =
      rankScores (transform ["apple"] "apple") (documentMatrix ["apple"]) ∧
    (queryCall true ["apple"] "apple").2 = (true, ["apple"]) :=
  ⟨(c7_determinism_purity ["apple"] "apple" "apple" rfl true "apple").1,
   (c7_determinism_purity ["apple"] "apple" "apple" rfl true "apple").2.1,
   (c7_determinism_purity ["apple"] "apple" "apple" rfl true "apple").2.2.1⟩

/-- C8 (counterexample): two failures of the claim as stated. On
`["apple", "...."]`, doc 1's exact text `"...."` has no tokens, so the self-query
scores `0.0` (not `1.0`) and the arg-max reports doc 0, not doc 1.  On
`["apple", "apple"]`, doc 1's exact text scores `1.0` but ties with doc 0 and the
arg-max again reports doc 0, so doc 1 is not ranked first. -/
theorem c8_counterexample :
    similarities ["apple", "...."] "...." = [0, 0] ∧
    argmaxIdx (similarities ["apple", "...."] "....") = 0 ∧
    similarities ["apple", "apple"] "apple" = [1, 1] ∧
    argmaxIdx (similarities ["apple", "apple"] "apple") = 0 := by
  refine ⟨sims_dots, ?_, sims_apple, ?_⟩
  · rw [sims_dots]
    exact argmax_pair_zeros
  · rw [sims_apple]
    exact argmax_pair_ones

/-- C8 (amended): for every document whose text yields at least one token, submitting
that document's exact text as a query gives that document similarity score exactly 1,
which is the maximum achievable — every document scores at most 1.  (A tokenless
document instead transforms to the zero vector and scores 0, and among equal maximal
scores the arg-max reports the smallest doc id.) -/
theorem c8_self_similarity (docs : List String) (d : ℕ) (hd : d < docs.length)
    (htok : tokenize (docs.getD d "") ≠ []) :
    (similarities docs (docs.getD d "")).getD d 0 = 1 ∧
    ∀ j < docs.length, (similarities docs (docs.getD d "")).getD j 0 ≤ 1 := by
  obtain ⟨t, ht⟩ : ∃ t, t ∈ tokenize (docs.getD d "") := by
    cases hcase : tokenize (docs.getD d "") with
    | nil => exact absurd hcase htok
    | cons a rest => exact ⟨a, hcase ▸ List.mem_cons_self a rest⟩
  have hmemdoc : docs.getD d "" ∈ docs := by
    rw [List.getD_eq_getElem docs "" hd]
    exact List.getElem_mem _
  have hv : t ∈ buildVocab docs := token_mem_buildVocab docs _ t hmemdoc ht
  have hsq : sqNorm docs (docs.getD d "") ≠ 0 :=
    ne_of_gt (sqNorm_pos_of_token docs _ t ht hv)
  constructor
  · rw [similarities_getD docs _ d hd]
    exact dot_transform_self docs _ hsq
  · intro j hj
    rw [similarities_getD docs _ j hj]
    exact dot_transform_le_one docs _ _ hsq

/-- C8 (witness): on the single-document corpus `["hello world"]`, querying the
document's own text scores exactly 1. -/
theorem c8_witness :
    (0 < (["hello world"] : List String).length ∧
      tokenize ((["hello world"] : List String).getD 0 "") ≠ []) ∧
    (similarities ["hello world"] ((["hello world"] : List String).getD 0 "")).getD 0 0 = 1 :=
  ⟨⟨by decide, by decide⟩,
    (c8_self_similarity ["hello world"] 0 (by decide) (by decide)).1⟩

/-- C9 (counterexample): with a previously fitted corpus `["apple"]`, clicking
`Load Documents` with one blank upload fails to vectorize but has already cleared the
document lists — the prior corpus does not remain in its previous state. -/
theorem c9_counterexample :
    load_documents_click ⟨["apple"], ["a.txt"], true, ["apple"]⟩ [("b.txt", "")] =
      ⟨[], [], false, ["apple"]⟩ ∧
    load_documents_click ⟨["apple"], ["a.txt"], true, ["apple"]⟩ [("b.txt", "")] ≠
      ⟨["apple"], ["a.txt"], true, ["apple"]⟩ := by
  constructor
  · rfl
  · decide

/-- C9 (amended): when every upload is blank the load attempt fails and leaves the
session with cleared document lists and the `vectorized` flag off, while the stale
fitted model object (`modelCorpus`) survives; that stale model is never visible to
queries — every subsequent search returns `None`. -/
theorem c9_failed_load (s : AppState) (uploads : List (String × String))
    (h : ∀ u ∈ uploads, isBlank u.2 = true) :
    load_documents_click s uploads = ⟨[], [], false, s.modelCorpus⟩ ∧
    ∀ q, app_search (load_documents_click s uploads) q = none := by
  have hfold : ∀ (ups : List (String × String)) (st : AppState),
      (∀ u ∈ ups, isBlank u.2 = true) →
      ups.foldl
        (fun st u =>
          if isBlank u.2 then st
          else { st with documents := st.documents ++ [u.2],
                         documentNames := st.documentNames ++ [u.1] }) st = st := by
    intro ups
    induction ups with
    | nil => intro st _; rfl
    | cons a rest ih =>
      intro st hall
      rw [List.foldl_cons, if_pos (hall a (List.mem_cons_self a rest))]
      exact ih st (fun u hu => hall u (List.mem_cons_of_mem a hu))
  have hload : load_documents_click s uploads = ⟨[], [], false, s.modelCorpus⟩ := by
    simp only [load_documents_click]
    rw [hfold uploads _ h]
    simp [vectorize_documents]
  refine ⟨hload, fun q => ?_⟩
  rw [hload, app_search, search_documents, if_pos (Or.inl rfl)]

/-- C9 (witness): the amended claim evaluated at a fitted state holding `["x"]` and a
single blank upload. -/
theorem c9_witness :
    isBlank "" = true ∧
    load_documents_click ⟨["x"], ["x.txt"], true, ["x"]⟩ [("b.txt", "")] =
      ⟨[], [], false, ["x"]⟩ ∧
    app_search (load_documents_click ⟨["x"], ["x.txt"], true, ["x"]⟩ [("b.txt", "")])
      "query" = none :=
  ⟨by decide,
   (c9_failed_load ⟨["x"], ["x.txt"], true, ["x"]⟩ [("b.txt", "")] (by decide)).1,
   (c9_failed_load ⟨["x"], ["x.txt"], true, ["x"]⟩ [("b.txt", "")] (by decide)).2 "query"⟩

/-- C10: on a fitted non-empty corpus with a non-blank query, the search outcome
carries the arg-max index, whose reported score is exactly that document's entry in
the per-document score array; the index is in range, its score is maximal, and every
strictly earlier document scores strictly less (so ties go to the smallest doc id). -/
theorem c10_argmax (docs : List String) (q : String) (hd : docs ≠ [])
    (hq : isBlank q = false) :
    query_documents true docs q =
      SearchOutcome.results (argmaxIdx (similarities docs q))
        ((similarities docs q).getD (argmaxIdx (similarities docs q)) 0)
        (similarities docs q) ∧
    argmaxIdx (similarities docs q) < docs.length ∧
    (∀ j < docs.length,
      (similarities docs q).getD j 0 ≤
        (similarities docs q).getD (argmaxIdx (similarities docs q)) 0) ∧
    (∀ j < argmaxIdx (similarities docs q),
      (similarities docs q).getD j 0 <
        (similarities docs q).getD (argmaxIdx (similarities docs q)) 0) := by
  have hlen : (similarities docs q).length = docs.length := similarities_length docs q
  have hne : similarities docs q ≠ [] := by
    intro hcon
    rw [hcon] at hlen
    exact hd (List.length_eq_zero.mp hlen.symm)
  refine ⟨?_, ?_, ?_, ?_⟩
  · rw [query_documents, if_neg (by simp [hq]), if_neg (by simp)]
  · rw [← hlen]
    exact argmaxIdx_lt_length _ hne
  · intro j hj
    exact getD_le_argmaxIdx _ j (by rw [hlen]; exact hj)
  · exact fun j hj => getD_lt_argmaxIdx _ j hj

/-- C10 (witness): on the corpus `["apple"]` with query `"apple"` the arg-max index is
in range. -/
theorem c10_witness :
    ((["apple"] : List String) ≠ [] ∧ isBlank "apple" = false) ∧
    argmaxIdx (similarities ["apple"] "apple") < (["apple"] : List String).length :=
  ⟨⟨by decide, by decide⟩, (c10_argmax ["apple"] "apple" (by decide) (by decide)).2.1⟩

end SimpleRAG
